import Mathlib

/-!
# Verification of the Matrix Life cellular-automaton engine

Shallow embedding of the core logic of `Matrix_Life.ino`: the rule table,
the toroidal transition engine, the activity counter, the cycle driver, and
the shape seeder.  Hardware collaborators (display, accelerometer, clock,
random source) are modelled as opaque inputs.
-/

namespace MatrixLife

/-- `#define WIDTH 128` -/
def WIDTH : Nat := 128

/-- `#define HEIGHT 64` -/
def HEIGHT : Nat := 64

/-- Adafruit GFX `color565(r,g,b)`: pack 8-bit RGB into a 16-bit 5-6-5 value. -/
def color565 (r g b : Nat) : Nat := r / 8 * 2048 + g / 4 * 32 + b / 8

def BLACK : Nat := color565 0 0 0

def DARK_BLUE : Nat := color565 0 20 64

def GREEN : Nat := color565 0 128 38

def DARK_ORANGE : Nat := color565 64 36 0

def PETROL_BLUE : Nat := color565 0 8 8

/-- `struct rule`: colour, alive flag, next-state row indexed by live-neighbour
count 0..8. -/
structure rule where
  colour : Nat
  alive : Nat
  row : List Nat

/-- `static const rule rules[]`: one rule per current cell state
(0 Dead, 1 Born, 2 Survived, 3 Dying, 4 Trail). -/
def rules : List rule :=
  [⟨BLACK, 0, [0, 0, 0, 1, 0, 0, 1, 0, 0]⟩,
   ⟨DARK_BLUE, 1, [3, 3, 2, 2, 3, 3, 3, 3, 3]⟩,
   ⟨GREEN, 1, [3, 3, 2, 2, 3, 3, 3, 3, 3]⟩,
   ⟨DARK_ORANGE, 0, [4, 4, 4, 1, 4, 4, 1, 4, 4]⟩,
   ⟨PETROL_BLUE, 0, [4, 4, 0, 1, 0, 0, 1, 0, 0]⟩]

/-- Out-of-range fallback row (indexing `rules[]` outside 0..4 is out of
bounds in the C source; states are kept in range by the validity invariant). -/
def defaultRule : rule := ⟨BLACK, 0, [0, 0, 0, 1, 0, 0, 1, 0, 0]⟩

/-- `rules[s].alive` -/
def alive (s : Nat) : Nat := (rules.getD s defaultRule).alive

/-- `rules[s].colour` -/
def colour (s : Nat) : Nat := (rules.getD s defaultRule).colour

/-- `rules[s].rule[n]`: next state from current state and live-neighbour count. -/
def ruleNext (s n : Nat) : Nat := (rules.getD s defaultRule).row.getD n 0

/-- One buffer of `int state[2][WIDTH][HEIGHT]`, as a total function; only
indices `x < WIDTH`, `y < HEIGHT` correspond to real cells. -/
def Grid : Type := Nat → Nat → Nat

/-- `l = (x==0) ? WIDTH-1 : x-1` -/
def wrapL (x : Nat) : Nat := if x = 0 then WIDTH - 1 else x - 1

/-- `r = (x==WIDTH-1) ? 0 : x+1` -/
def wrapR (x : Nat) : Nat := if x = WIDTH - 1 then 0 else x + 1

/-- `u = (y==0) ? HEIGHT-1 : y-1` -/
def wrapU (y : Nat) : Nat := if y = 0 then HEIGHT - 1 else y - 1

/-- `d = (y==HEIGHT-1) ? 0 : y+1` -/
def wrapD (y : Nat) : Nat := if y = HEIGHT - 1 then 0 else y + 1

/-- The eight toroidally wrapped neighbour coordinates of `(x,y)`, in the
order the transition loop reads them. -/
def neighbours (x y : Nat) : List (Nat × Nat) :=
  [(wrapL x, wrapU y), (x, wrapU y), (wrapR x, wrapU y),
   (wrapL x, y), (wrapR x, y),
   (wrapL x, wrapD y), (x, wrapD y), (wrapR x, wrapD y)]

/-- `n = rules[state[now][l][u]].alive + ...`: the eight-term alive sum. -/
def neighbourCount (g : Grid) (x y : Nat) : Nat :=
  alive (g (wrapL x) (wrapU y)) + alive (g x (wrapU y)) + alive (g (wrapR x) (wrapU y))
    + alive (g (wrapL x) y) + alive (g (wrapR x) y)
    + alive (g (wrapL x) (wrapD y)) + alive (g x (wrapD y)) + alive (g (wrapR x) (wrapD y))

/-- `ns = rules[s].rule[n]`: the new state of cell `(x,y)`. -/
def nextState (g : Grid) (x y : Nat) : Nat :=
  ruleNext (g x y) (neighbourCount g x y)

/-- The next-state grid written into `state[next]` by one pass of the loop. -/
def stepGrid (g : Grid) : Grid := fun x y => nextState g x y

/-- `lc`: the activity accumulator, `lc += rules[ns].alive` over all cells. -/
def activity (g : Grid) : Nat :=
  ∑ y ∈ Finset.range HEIGHT, ∑ x ∈ Finset.range WIDTH, alive (nextState g x y)

/-- `state[2][WIDTH][HEIGHT]`: both buffers, indexed by a buffer flag. -/
def GState : Type := Bool → Nat → Nat → Nat

/-- `struct shape`: width, height and a row-major character mask
(`'1'` marks a live cell). -/
structure shape where
  width : Nat
  height : Nat
  mask : String

def GLIDER : shape := ⟨3, 3, " 1 " ++ "  1" ++ "111"⟩

def GLIDER2 : shape := ⟨3, 3, " 1 " ++ "1  " ++ "111"⟩

def GLIDER3 : shape := ⟨3, 3, "111" ++ "1  " ++ " 1 "⟩

def GLIDER4 : shape := ⟨3, 3, "111" ++ "  1" ++ " 1 "⟩

def LWSS : shape := ⟨5, 4, "1  1 " ++ "    1" ++ "1   1" ++ " 1111"⟩

def MWSS : shape := ⟨6, 5, "11111 " ++ "1    1" ++ "1     " ++ " 1   1" ++ "   1  "⟩

def HWSS : shape := ⟨7, 5, " 111111" ++ "1     1" ++ "      1" ++ "1    1 " ++ "  11   "⟩

def RPENT : shape := ⟨3, 3, " 11" ++ "11 " ++ " 1 "⟩

def DIEHARD : shape := ⟨8, 3, "       1" ++ "11      " ++ " 1   111"⟩

def ACORN : shape := ⟨7, 3, " 1     " ++ "   1   " ++ "11  111"⟩

/-- `static const shape *seeds[]`: the weighted shape selection list. -/
def seeds : List shape :=
  [GLIDER, GLIDER2, GLIDER3, GLIDER4, LWSS, MWSS, HWSS, RPENT, RPENT,
   DIEHARD, DIEHARD, ACORN, ACORN]

/-- `seedsC = sizeof(seeds)/sizeof(seeds[0])` -/
def seedsC : Nat := seeds.length

/-- One triple of random draws made by an iteration of `seed`:
`px = random(10, WIDTH-10)`, `py = random(10, HEIGHT-10)`,
`s = random(seedsC)`. -/
structure Draw where
  px : Nat
  py : Nat
  s : Nat

/-- The draw ranges guaranteed by the Arduino `random` calls in `seed`. -/
def validDraw (d : Draw) : Prop :=
  10 ≤ d.px ∧ d.px < WIDTH - 10 ∧ 10 ≤ d.py ∧ d.py < HEIGHT - 10 ∧ d.s < seedsC

/-- Write one cell of one buffer: `state[i][a][b] = v`. -/
def wr (st : GState) (i : Bool) (a b v : Nat) : GState :=
  fun j x y => if j = i ∧ x = a ∧ y = b then v else st j x y

/-- The character of a shape mask at linear index `k` (`k = y*width + x`
in the copy loop of `seed`). -/
def maskChar (sh : shape) (k : Nat) : Char := sh.mask.toList.getD k ' '

/-- The copy loop of `seed` restricted to the linear indices in `L`:
`if(seed->shape[i] == '1') state[now][px+x][py+y] = 2`. -/
def stampList (st : GState) (i : Bool) (sh : shape) (px py : Nat) (L : List Nat) : GState :=
  L.foldl
    (fun acc k =>
      if maskChar sh k = '1' then wr acc i (px + k % sh.width) (py + k / sh.width) 2
      else acc) st

/-- The full copy loop of `seed` for one shape at origin `(px, py)`. -/
def stampShape (st : GState) (i : Bool) (sh : shape) (px py : Nat) : GState :=
  stampList st i sh px py (List.range (sh.width * sh.height))

/-- `seeds[s]` for a draw (index kept in range by `validDraw`). -/
def drawShape (d : Draw) : shape := seeds.getD d.s GLIDER

/-- One iteration of the outer loop of `seed`. -/
def stampDraw (st : GState) (i : Bool) (d : Draw) : GState :=
  stampShape st i (drawShape d) d.px d.py

/-- `seed(n)`: stamp `n` drawn shapes into buffer `i` (the current buffer). -/
def seedN (st : GState) (i : Bool) (n : Nat) (ds : Nat → Draw) : GState :=
  (List.range n).foldl (fun acc k => stampDraw acc i (ds k)) st

/-- The double-buffered machine state: both grids plus the `now` flag
(`next` is always the other buffer, `now ^ 1`). -/
structure Mach where
  st : GState
  now : Bool

/-- The per-cell write loop of `loop()`: `state[next][x][y] = ns` for every
`x < WIDTH`, `y < HEIGHT`. -/
def writeNext (st : GState) (i : Bool) (g : Grid) : GState :=
  fun j x y => if j = i ∧ x < WIDTH ∧ y < HEIGHT then g x y else st j x y

/-- The reseed threshold `HEIGHT * WIDTH / 25`. -/
def threshold : Nat := HEIGHT * WIDTH / 25

/-- One pass of `loop()` (display and frame pacing elided): compute next
states and activity from the current buffer, write the next buffer, swap
`now`/`next`, and reseed with `seed(1)` when activity is low. -/
def cycle (m : Mach) (ds : Nat → Draw) : Mach :=
  let g := m.st m.now
  let st1 := writeNext m.st (!m.now) (stepGrid g)
  if activity g < threshold then ⟨seedN st1 (!m.now) 1 ds, !m.now⟩
  else ⟨st1, !m.now⟩

/-- Global arrays are zero-initialised in C: both buffers start all Dead. -/
def initState : GState := fun _ _ _ => 0

/-- The machine at startup: all-Dead buffers, `now = 0`. -/
def initMach : Mach := ⟨initState, false⟩

/-- Every real cell of a single grid holds a valid rule-table index. -/
def validGrid (g : Grid) : Prop :=
  ∀ x, x < WIDTH → ∀ y, y < HEIGHT → g x y < 5

/-- Every real cell of both buffers holds a valid rule-table index. -/
def validGState (st : GState) : Prop :=
  ∀ (i : Bool) x, x < WIDTH → ∀ y, y < HEIGHT → st i x y < 5

/-- Machine-level validity invariant. -/
def validMach (m : Mach) : Prop := validGState m.st

/-- Cell `(X,Y)` is covered by a mask-true offset of shape `sh` stamped at
origin `(px,py)`: some linear mask index `k` has character `'1'` and maps to
`(X,Y)` (`x = k mod width`, `y = k div width` in the copy loop). -/
def maskHit (sh : shape) (px py X Y : Nat) : Prop :=
  ∃ k, k < sh.width * sh.height ∧ maskChar sh k = '1'
    ∧ X = px + k % sh.width ∧ Y = py + k / sh.width

/-- Cell `(X,Y)` is covered by the shape stamped for draw `d`. -/
def drawHit (d : Draw) (X Y : Nat) : Prop :=
  maskHit (drawShape d) d.px d.py X Y

/-- Sum of the alive flags over all real cells of one grid (the activity
count of a grid at rest, as used in the spec's seeding scenario). -/
def gridAliveCount (g : Grid) : Nat :=
  ∑ y ∈ Finset.range HEIGHT, ∑ x ∈ Finset.range WIDTH, alive (g x y)

end MatrixLife

namespace MatrixLife

theorem alive_le_one (s : Nat) : alive s ≤ 1 := by
  unfold alive rules defaultRule
  rcases s with _ | _ | _ | _ | _ | s <;> simp [List.getD]

theorem wrapL_lt (x : Nat) (hx : x < WIDTH) : wrapL x < WIDTH := by
  unfold wrapL WIDTH at *; split <;> omega

theorem wrapR_lt (x : Nat) (hx : x < WIDTH) : wrapR x < WIDTH := by
  unfold wrapR WIDTH at *; split <;> omega

theorem wrapU_lt (y : Nat) (hy : y < HEIGHT) : wrapU y < HEIGHT := by
  unfold wrapU HEIGHT at *; split <;> omega

theorem wrapD_lt (y : Nat) (hy : y < HEIGHT) : wrapD y < HEIGHT := by
  unfold wrapD HEIGHT at *; split <;> omega

theorem wrapL_ne (x : Nat) (hx : x < WIDTH) : wrapL x ≠ x := by
  unfold wrapL WIDTH at *; split <;> omega

theorem wrapR_ne (x : Nat) (hx : x < WIDTH) : wrapR x ≠ x := by
  unfold wrapR WIDTH at *; split <;> omega

theorem wrapL_ne_wrapR (x : Nat) (hx : x < WIDTH) : wrapL x ≠ wrapR x := by
  unfold wrapL wrapR WIDTH at *; split <;> split <;> omega

theorem wrapU_ne (y : Nat) (hy : y < HEIGHT) : wrapU y ≠ y := by
  unfold wrapU HEIGHT at *; split <;> omega

theorem wrapD_ne (y : Nat) (hy : y < HEIGHT) : wrapD y ≠ y := by
  unfold wrapD HEIGHT at *; split <;> omega

theorem wrapU_ne_wrapD (y : Nat) (hy : y < HEIGHT) : wrapU y ≠ wrapD y := by
  unfold wrapU wrapD HEIGHT at *; split <;> split <;> omega

theorem neighbourCount_le_eight (g : Grid) (x y : Nat) :
    neighbourCount g x y ≤ 8 := by
  unfold neighbourCount
  have h1 := alive_le_one (g (wrapL x) (wrapU y))
  have h2 := alive_le_one (g x (wrapU y))
  have h3 := alive_le_one (g (wrapR x) (wrapU y))
  have h4 := alive_le_one (g (wrapL x) y)
  have h5 := alive_le_one (g (wrapR x) y)
  have h6 := alive_le_one (g (wrapL x) (wrapD y))
  have h7 := alive_le_one (g x (wrapD y))
  have h8 := alive_le_one (g (wrapR x) (wrapD y))
  omega

/-- C1: for every cell `(x,y)` of the grid, the neighbour count used by the
transition engine is the sum of the rule-table alive flags over exactly the
eight toroidally wrapped neighbour cells — a list of length 8 with no
duplicates that excludes the cell itself, whose coordinates are the modular
translates of `(x,y)` — and therefore lies in `[0,8]`; and the corner cell
`(0,0)` counts the wrapped neighbours `(WIDTH-1, HEIGHT-1)`, `(WIDTH-1, 0)`
and `(0, HEIGHT-1)`. -/
theorem neighbourCount_is_toroidal_alive_sum :
    (∀ (g : Grid) (x y : Nat), x < WIDTH → y < HEIGHT →
      neighbourCount g x y = ((neighbours x y).map (fun p => alive (g p.1 p.2))).sum
      ∧ (neighbours x y).length = 8
      ∧ (x, y) ∉ neighbours x y
      ∧ (neighbours x y).Nodup
      ∧ neighbourCount g x y ≤ 8
      ∧ wrapL x = (x + (WIDTH - 1)) % WIDTH
      ∧ wrapR x = (x + 1) % WIDTH
      ∧ wrapU y = (y + (HEIGHT - 1)) % HEIGHT
      ∧ wrapD y = (y + 1) % HEIGHT)
    ∧ (WIDTH - 1, HEIGHT - 1) ∈ neighbours 0 0
    ∧ (WIDTH - 1, 0) ∈ neighbours 0 0
    ∧ (0, HEIGHT - 1) ∈ neighbours 0 0 := by
  refine ⟨fun g x y hx hy => ?_, by decide, by decide, by decide⟩
  have hlx := wrapL_ne x hx
  have hrx := wrapR_ne x hx
  have hlr := wrapL_ne_wrapR x hx
  have huy := wrapU_ne y hy
  have hdy := wrapD_ne y hy
  have hud := wrapU_ne_wrapD y hy
  refine ⟨?_, by simp [neighbours], ?_, ?_, neighbourCount_le_eight g x y, ?_, ?_, ?_, ?_⟩
  · simp only [neighbours, neighbourCount, List.map_cons, List.map_nil, List.sum_cons,
      List.sum_nil]
    omega
  · simp only [neighbours, List.mem_cons, List.not_mem_nil, Prod.mk.injEq, not_or]
    tauto
  · simp only [neighbours, List.nodup_cons, List.mem_cons, List.not_mem_nil,
      Prod.mk.injEq, not_or, List.nodup_nil]
    tauto
  · unfold wrapL WIDTH at *; split <;> omega
  · unfold wrapR WIDTH at *; split <;> omega
  · unfold wrapU HEIGHT at *; split <;> omega
  · unfold wrapD HEIGHT at *; split <;> omega

theorem neighbourCount_is_toroidal_alive_sum_witness :
    neighbourCount (fun _ _ => 0) 0 0
      = ((neighbours 0 0).map (fun p => alive ((fun _ _ => (0 : Nat)) p.1 p.2))).sum :=
  (neighbourCount_is_toroidal_alive_sum.1 (fun _ _ => 0) 0 0 (by decide) (by decide)).1

theorem getD_lt_of_forall_lt (l : List Nat) (m : Nat) (h : ∀ a ∈ l, a < m)
    (hm : 0 < m) : ∀ n, l.getD n 0 < m := by
  induction l with
  | nil => intro n; simpa [List.getD]
  | cons a l ih =>
    intro n
    cases n with
    | zero => simpa using h a (by simp)
    | succ n =>
      simp only [List.getD_cons_succ]
      exact ih (fun b hb => h b (by simp [hb])) n

theorem ruleNext_lt_five (s n : Nat) (hs : s < 5) : ruleNext s n < 5 := by
  unfold ruleNext rules
  interval_cases s <;>
    exact getD_lt_of_forall_lt _ 5 (by decide) (by decide) n

theorem stepGrid_valid (g : Grid) (hg : validGrid g) :
    ∀ x, x < WIDTH → ∀ y, y < HEIGHT → stepGrid g x y < 5 := by
  intro x hx y hy
  exact ruleNext_lt_five _ _ (hg x hx y hy)

theorem wr_valid (st : GState) (i : Bool) (a b v : Nat) (hst : validGState st)
    (hv : v < 5) : validGState (wr st i a b v) := by
  intro j x hx y hy
  unfold wr
  split
  · exact hv
  · exact hst j x hx y hy

theorem stampList_valid (i : Bool) (sh : shape) (px py : Nat) :
    ∀ (L : List Nat) (st : GState), validGState st →
      validGState (stampList st i sh px py L) := by
  intro L
  induction L with
  | nil => intro st hst; exact hst
  | cons k L ih =>
    intro st hst
    simp only [stampList, List.foldl_cons]
    by_cases hk : maskChar sh k = '1'
    · simp only [hk, if_pos rfl]
      exact ih _ (wr_valid _ _ _ _ _ hst (by decide))
    · simp only [if_neg hk]
      exact ih _ hst

theorem seedN_valid (i : Bool) (ds : Nat → Draw) :
    ∀ (n : Nat) (st : GState), validGState st → validGState (seedN st i n ds) := by
  intro n
  induction n with
  | zero => intro st hst; exact hst
  | succ n ih =>
    intro st hst
    have hrw : seedN st i (n + 1) ds = stampDraw (seedN st i n ds) i (ds (n)) := by
      unfold seedN
      rw [List.range_succ, List.foldl_append]
      rfl
    rw [hrw]
    exact stampList_valid i _ _ _ _ _ (ih st hst)

theorem writeNext_valid (st : GState) (i : Bool) (g : Grid)
    (hst : validGState st) (hg : ∀ x, x < WIDTH → ∀ y, y < HEIGHT → g x y < 5) :
    validGState (writeNext st i g) := by
  intro j x hx y hy
  unfold writeNext
  split
  · next h => exact hg x h.2.1 y h.2.2
  · exact hst j x hx y hy

theorem cycle_valid (m : Mach) (ds : Nat → Draw) (hm : validMach m) :
    validMach (cycle m ds) := by
  have hg : validGrid (m.st m.now) := fun x hx y hy => hm m.now x hx y hy
  have h1 : validGState (writeNext m.st (!m.now) (stepGrid (m.st m.now))) :=
    writeNext_valid _ _ _ hm (stepGrid_valid _ hg)
  unfold cycle validMach
  dsimp only
  split
  · exact seedN_valid _ _ _ _ h1
  · exact h1

/-- C2: every grid cell always holds a valid rule-table index (an integer
in 0..4): the initial all-Dead double buffer is valid, one full cycle
(transition step, buffer swap, and conditional reseed) preserves validity,
every seeder call preserves validity (it writes only the Survived index 2),
and the transition step writes only rule-table next states, which are
themselves valid indices. -/
theorem grid_states_always_valid_rule_indices :
    validMach initMach
    ∧ rules.length = 5
    ∧ (∀ (m : Mach) (ds : Nat → Draw), validMach m → validMach (cycle m ds))
    ∧ (∀ (st : GState) (i : Bool) (n : Nat) (ds : Nat → Draw),
        validGState st → validGState (seedN st i n ds))
    ∧ (∀ g : Grid, validGrid g →
        ∀ x, x < WIDTH → ∀ y, y < HEIGHT → stepGrid g x y < 5) := by
  refine ⟨?_, rfl, fun m ds hm => cycle_valid m ds hm,
    fun st i n ds hst => seedN_valid i ds n st hst,
    fun g hg => stepGrid_valid g hg⟩
  intro i x hx y hy
  exact Nat.succ_pos 4

theorem grid_states_always_valid_rule_indices_witness :
    validMach (cycle initMach (fun _ => ⟨10, 10, 0⟩)) :=
  grid_states_always_valid_rule_indices.2.2.1 initMach (fun _ => ⟨10, 10, 0⟩)
    grid_states_always_valid_rule_indices.1

end MatrixLife

namespace MatrixLife

/-- Agreement of two grids on every real cell. -/
def agreeOn (g1 g2 : Grid) : Prop :=
  ∀ x, x < WIDTH → ∀ y, y < HEIGHT → g1 x y = g2 x y

/-- A 2×2 block of Survived (state 2) cells with upper-left corner `(a, b)`
(the opposite corner wraps toroidally), every other cell Dead. -/
def blockGrid (a b : Nat) : Grid :=
  fun x y =>
    if (x = a ∨ x = (a + 1) % WIDTH) ∧ (y = b ∨ y = (b + 1) % HEIGHT) then 2 else 0

/-- Indicator of membership in the two-element index set of `a` and
`(a+1) mod m`. -/
def mInd (m a t : Nat) : Nat := if t = a ∨ t = (a + 1) % m then 1 else 0

/-- `k` repeated transition steps. -/
def stepIter : Nat → Grid → Grid
  | 0, g => g
  | n + 1, g => stepIter n (stepGrid g)

/-- The number of cells whose next state has alive flag 1 (the spec's
characterisation of the activity counter). -/
def nextAliveCellCount (g : Grid) : Nat :=
  ((Finset.range HEIGHT ×ˢ Finset.range WIDTH).filter
    (fun p => alive (nextState g p.2 p.1) = 1)).card

theorem alive_eq_boole (v : Nat) : alive v = if alive v = 1 then 1 else 0 := by
  have h := alive_le_one v
  by_cases h1 : alive v = 1 <;> simp [h1] <;> omega

theorem activity_eq_count (g : Grid) : activity g = nextAliveCellCount g := by
  unfold activity nextAliveCellCount
  calc
    ∑ y ∈ Finset.range HEIGHT, ∑ x ∈ Finset.range WIDTH, alive (nextState g x y)
        = ∑ y ∈ Finset.range HEIGHT, ∑ x ∈ Finset.range WIDTH,
            (if alive (nextState g x y) = 1 then 1 else 0) := by
          refine Finset.sum_congr rfl fun y _ => Finset.sum_congr rfl fun x _ => ?_
          exact alive_eq_boole _
    _ = ∑ p ∈ Finset.range HEIGHT ×ˢ Finset.range WIDTH,
            (if alive (nextState g p.2 p.1) = 1 then 1 else 0) :=
          by rw [Finset.sum_product]
    _ = ((Finset.range HEIGHT ×ˢ Finset.range WIDTH).filter
            (fun p => alive (nextState g p.2 p.1) = 1)).card := by
          rw [Finset.sum_boole]
          simp

theorem nextAliveCellCount_dead : nextAliveCellCount (fun _ _ => 0) = 0 := by
  unfold nextAliveCellCount
  rw [Finset.card_eq_zero, Finset.filter_eq_empty_iff]
  intro p _
  show ¬alive (nextState (fun _ _ => 0) p.2 p.1) = 1
  have h : nextState (fun _ _ => 0) p.2 p.1 = 0 := rfl
  rw [h]
  decide

/-- C3: in every cycle, after the transition step and buffer swap, the
cycle driver invokes the seeder with reseed count 1 exactly when the
activity count — the number of cells whose next state has alive flag 1 —
is strictly below `WIDTH*HEIGHT/25` (= 327); otherwise the machine is left
exactly as the transition step and swap produced it. -/
theorem cycle_reseeds_iff_low_activity :
    ∀ (m : Mach) (ds : Nat → Draw),
      threshold = WIDTH * HEIGHT / 25
      ∧ WIDTH * HEIGHT / 25 = 327
      ∧ activity (m.st m.now) = nextAliveCellCount (m.st m.now)
      ∧ (nextAliveCellCount (m.st m.now) < WIDTH * HEIGHT / 25 →
          cycle m ds = ⟨seedN (writeNext m.st (!m.now) (stepGrid (m.st m.now)))
            (!m.now) 1 ds, !m.now⟩)
      ∧ (WIDTH * HEIGHT / 25 ≤ nextAliveCellCount (m.st m.now) →
          cycle m ds = ⟨writeNext m.st (!m.now) (stepGrid (m.st m.now)), !m.now⟩) := by
  intro m ds
  refine ⟨by decide, by decide, activity_eq_count _, ?_, ?_⟩
  · intro h
    have hlt : activity (m.st m.now) < threshold := by
      rw [activity_eq_count]
      have e : threshold = WIDTH * HEIGHT / 25 := by decide
      omega
    unfold cycle
    dsimp only
    rw [if_pos hlt]
  · intro h
    have hge : ¬activity (m.st m.now) < threshold := by
      rw [activity_eq_count]
      have e : threshold = WIDTH * HEIGHT / 25 := by decide
      omega
    unfold cycle
    dsimp only
    rw [if_neg hge]

theorem neighbourCount_congr (g1 g2 : Grid) (h : agreeOn g1 g2) (x y : Nat)
    (hx : x < WIDTH) (hy : y < HEIGHT) :
    neighbourCount g1 x y = neighbourCount g2 x y := by
  unfold neighbourCount
  rw [h _ (wrapL_lt x hx) _ (wrapU_lt y hy), h _ hx _ (wrapU_lt y hy),
    h _ (wrapR_lt x hx) _ (wrapU_lt y hy), h _ (wrapL_lt x hx) _ hy,
    h _ (wrapR_lt x hx) _ hy, h _ (wrapL_lt x hx) _ (wrapD_lt y hy),
    h _ hx _ (wrapD_lt y hy), h _ (wrapR_lt x hx) _ (wrapD_lt y hy)]

theorem nextState_congr (g1 g2 : Grid) (h : agreeOn g1 g2) (x y : Nat)
    (hx : x < WIDTH) (hy : y < HEIGHT) :
    nextState g1 x y = nextState g2 x y := by
  unfold nextState
  rw [h x hx y hy, neighbourCount_congr g1 g2 h x y hx hy]

theorem stepGrid_congr (g1 g2 : Grid) (h : agreeOn g1 g2) :
    agreeOn (stepGrid g1) (stepGrid g2) := by
  intro x hx y hy
  exact nextState_congr g1 g2 h x y hx hy

theorem activity_congr (g1 g2 : Grid) (h : agreeOn g1 g2) :
    activity g1 = activity g2 := by
  unfold activity
  refine Finset.sum_congr rfl fun y hy => Finset.sum_congr rfl fun x hx => ?_
  rw [nextState_congr g1 g2 h x y (Finset.mem_range.1 hx) (Finset.mem_range.1 hy)]

theorem stepIter_congr (g1 g2 : Grid) (h : agreeOn g1 g2) :
    ∀ k, agreeOn (stepIter k g1) (stepIter k g2) := by
  intro k
  induction k generalizing g1 g2 with
  | zero => exact h
  | succ k ih => exact ih (stepGrid g1) (stepGrid g2) (stepGrid_congr g1 g2 h)

/-- C9: the transition engine is deterministic and reads only the current
grid: two runs whose current grids agree on every cell produce, after one
step, agreeing next grids, equal activity counts and identical per-cell
display colours, and after any number of steps with no seeder calls,
agreeing grids. -/
theorem transition_engine_deterministic :
    ∀ g1 g2 : Grid, agreeOn g1 g2 →
      agreeOn (stepGrid g1) (stepGrid g2)
      ∧ activity g1 = activity g2
      ∧ (∀ x, x < WIDTH → ∀ y, y < HEIGHT →
          colour (stepGrid g1 x y) = colour (stepGrid g2 x y))
      ∧ (∀ k, agreeOn (stepIter k g1) (stepIter k g2)) := by
  intro g1 g2 h
  refine ⟨stepGrid_congr g1 g2 h, activity_congr g1 g2 h, ?_, stepIter_congr g1 g2 h⟩
  intro x hx y hy
  rw [stepGrid_congr g1 g2 h x hx y hy]

theorem transition_engine_deterministic_witness :
    activity (fun _ _ => 0) = activity (fun _ _ => 0) :=
  (transition_engine_deterministic (fun _ _ => 0) (fun _ _ => 0)
    (fun _ _ _ _ => rfl)).2.1

theorem wrapL_mod (x : Nat) (hx : x < WIDTH) : wrapL x = (x + 127) % 128 := by
  unfold wrapL WIDTH at *; split <;> omega

theorem wrapR_mod (x : Nat) (hx : x < WIDTH) : wrapR x = (x + 1) % 128 := by
  unfold wrapR WIDTH at *; split <;> omega

theorem wrapU_mod (y : Nat) (hy : y < HEIGHT) : wrapU y = (y + 63) % 64 := by
  unfold wrapU HEIGHT at *; split <;> omega

theorem wrapD_mod (y : Nat) (hy : y < HEIGHT) : wrapD y = (y + 1) % 64 := by
  unfold wrapD HEIGHT at *; split <;> omega

theorem alive_block (a b x y : Nat) :
    alive (blockGrid a b x y) = mInd WIDTH a x * mInd HEIGHT b y := by
  unfold blockGrid mInd
  by_cases hx : x = a ∨ x = (a + 1) % WIDTH <;>
    by_cases hy : y = b ∨ y = (b + 1) % HEIGHT <;>
    simp [hx, hy] <;> decide

theorem blockNeighbourCount (a b x y : Nat) :
    neighbourCount (blockGrid a b) x y + mInd WIDTH a x * mInd HEIGHT b y
      = (mInd WIDTH a (wrapL x) + mInd WIDTH a x + mInd WIDTH a (wrapR x))
        * (mInd HEIGHT b (wrapU y) + mInd HEIGHT b y + mInd HEIGHT b (wrapD y)) := by
  unfold neighbourCount
  rw [alive_block, alive_block, alive_block, alive_block, alive_block, alive_block,
    alive_block, alive_block]
  ring

theorem colSum_spec (a x : Nat) (ha : a < WIDTH) (hx : x < WIDTH) :
    ((x = a ∨ x = (a + 1) % WIDTH) →
      mInd WIDTH a (wrapL x) + mInd WIDTH a x + mInd WIDTH a (wrapR x) = 2)
    ∧ (¬(x = a ∨ x = (a + 1) % WIDTH) →
      mInd WIDTH a (wrapL x) + mInd WIDTH a x + mInd WIDTH a (wrapR x) ≤ 1) := by
  have hl := wrapL_mod x hx
  have hr := wrapR_mod x hx
  simp only [mInd, WIDTH] at *
  constructor <;> intro h <;> split_ifs <;> omega

theorem rowSum_spec (b y : Nat) (hb : b < HEIGHT) (hy : y < HEIGHT) :
    ((y = b ∨ y = (b + 1) % HEIGHT) →
      mInd HEIGHT b (wrapU y) + mInd HEIGHT b y + mInd HEIGHT b (wrapD y) = 2)
    ∧ (¬(y = b ∨ y = (b + 1) % HEIGHT) →
      mInd HEIGHT b (wrapU y) + mInd HEIGHT b y + mInd HEIGHT b (wrapD y) ≤ 1) := by
  have hu := wrapU_mod y hy
  have hd := wrapD_mod y hy
  simp only [mInd, HEIGHT] at *
  constructor <;> intro h <;> split_ifs <;> omega

theorem ruleNext_dead_low (n : Nat) (hn : n ≤ 2) : ruleNext 0 n = 0 := by
  interval_cases n <;> decide

theorem blockGrid_step (a b : Nat) (ha : a < WIDTH) (hb : b < HEIGHT) :
    agreeOn (stepGrid (blockGrid a b)) (blockGrid a b) := by
  intro x hx y hy
  have hcol := colSum_spec a x ha hx
  have hrow := rowSum_spec b y hb hy
  have hprod := blockNeighbourCount a b x y
  show nextState (blockGrid a b) x y = blockGrid a b x y
  unfold nextState
  by_cases hxm : x = a ∨ x = (a + 1) % WIDTH <;>
    by_cases hym : y = b ∨ y = (b + 1) % HEIGHT
  · have hs : blockGrid a b x y = 2 := by simp [blockGrid, hxm, hym]
    have hcx : mInd WIDTH a x = 1 := by simp [mInd, hxm]
    have hcy : mInd HEIGHT b y = 1 := by simp [mInd, hym]
    have hn : neighbourCount (blockGrid a b) x y = 3 := by
      rw [hcol.1 hxm, hrow.1 hym, hcx, hcy] at hprod
      omega
    rw [hs, hn]
    decide
  · have hs : blockGrid a b x y = 0 := by simp [blockGrid, hym]
    have hcy : mInd HEIGHT b y = 0 := by simp [mInd, hym]
    have hn : neighbourCount (blockGrid a b) x y ≤ 2 := by
      rw [hcol.1 hxm, hcy] at hprod
      have h2 := hrow.2 hym
      omega
    rw [hs]
    exact ruleNext_dead_low _ hn
  · have hs : blockGrid a b x y = 0 := by simp [blockGrid, hxm]
    have hcx : mInd WIDTH a x = 0 := by simp [mInd, hxm]
    have hn : neighbourCount (blockGrid a b) x y ≤ 2 := by
      rw [hrow.1 hym, hcx] at hprod
      have h2 := hcol.2 hxm
      omega
    rw [hs]
    exact ruleNext_dead_low _ hn
  · have hs : blockGrid a b x y = 0 := by simp [blockGrid, hxm]
    have hcx : mInd WIDTH a x = 0 := by simp [mInd, hxm]
    have hn : neighbourCount (blockGrid a b) x y ≤ 2 := by
      have h2 := hcol.2 hxm
      have h3 := hrow.2 hym
      rw [hcx] at hprod h2
      have hmul := Nat.mul_le_mul h2 h3
      omega
    rw [hs]
    exact ruleNext_dead_low _ hn

theorem agreeOn_trans (g1 g2 g3 : Grid) (h12 : agreeOn g1 g2) (h23 : agreeOn g2 g3) :
    agreeOn g1 g3 := by
  intro x hx y hy
  rw [h12 x hx y hy, h23 x hx y hy]

theorem blockGrid_stepIter (a b : Nat) (ha : a < WIDTH) (hb : b < HEIGHT) :
    ∀ k, agreeOn (stepIter k (blockGrid a b)) (blockGrid a b) := by
  intro k
  induction k with
  | zero => intro x hx y hy; rfl
  | succ k ih =>
    have h1 : agreeOn (stepIter k (stepGrid (blockGrid a b))) (stepIter k (blockGrid a b)) :=
      stepIter_congr _ _ (blockGrid_step a b ha hb) k
    exact agreeOn_trans _ _ _ h1 ih

theorem mInd_split (m a t : Nat) (ha : a < m) (hm : 1 < m) :
    mInd m a t = (if t = a then 1 else 0) + (if t = (a + 1) % m then 1 else 0) := by
  have hne : (a + 1) % m ≠ a := by
    rcases Nat.lt_or_ge (a + 1) m with h | h
    · rw [Nat.mod_eq_of_lt h]
      omega
    · have he : a + 1 = m := by omega
      rw [he, Nat.mod_self]
      omega
  unfold mInd
  split_ifs <;> omega

theorem sum_mInd (m a : Nat) (ha : a < m) (hm : 1 < m) :
    ∑ t ∈ Finset.range m, mInd m a t = 2 := by
  have hmod : (a + 1) % m < m := Nat.mod_lt _ (by omega)
  calc
    ∑ t ∈ Finset.range m, mInd m a t
        = ∑ t ∈ Finset.range m,
            ((if t = a then 1 else 0) + (if t = (a + 1) % m then 1 else 0)) :=
          Finset.sum_congr rfl fun t _ => mInd_split m a t ha hm
    _ = (∑ t ∈ Finset.range m, if t = a then 1 else 0)
          + ∑ t ∈ Finset.range m, if t = (a + 1) % m then 1 else 0 :=
          Finset.sum_add_distrib
    _ = 2 := by
          rw [Finset.sum_ite_eq' (Finset.range m) a (fun _ => 1),
            Finset.sum_ite_eq' (Finset.range m) ((a + 1) % m) (fun _ => 1)]
          rw [if_pos (Finset.mem_range.2 ha), if_pos (Finset.mem_range.2 hmod)]

theorem activity_block (a b : Nat) (ha : a < WIDTH) (hb : b < HEIGHT) :
    activity (blockGrid a b) = 4 := by
  unfold activity
  calc
    ∑ y ∈ Finset.range HEIGHT, ∑ x ∈ Finset.range WIDTH, alive (nextState (blockGrid a b) x y)
        = ∑ y ∈ Finset.range HEIGHT, ∑ x ∈ Finset.range WIDTH,
            mInd WIDTH a x * mInd HEIGHT b y := by
          refine Finset.sum_congr rfl fun y hy => Finset.sum_congr rfl fun x hx => ?_
          have h := blockGrid_step a b ha hb x (Finset.mem_range.1 hx) y (Finset.mem_range.1 hy)
          rw [show nextState (blockGrid a b) x y = blockGrid a b x y from h]
          exact alive_block a b x y
    _ = ∑ y ∈ Finset.range HEIGHT, (∑ x ∈ Finset.range WIDTH, mInd WIDTH a x) * mInd HEIGHT b y :=
          Finset.sum_congr rfl fun y _ => (Finset.sum_mul _ _ _).symm
    _ = ∑ y ∈ Finset.range HEIGHT, 2 * mInd HEIGHT b y := by
          rw [sum_mInd WIDTH a ha (by decide)]
    _ = 2 * ∑ y ∈ Finset.range HEIGHT, mInd HEIGHT b y := (Finset.mul_sum _ _ _).symm
    _ = 4 := by rw [sum_mInd HEIGHT b hb (by decide)]

/-- C4: a grid holding a 2×2 block of Survived (index 2) cells with corner
`(a,b)` (wrapping toroidally when the block touches an edge), all other
cells Dead, is a still life: one transition step reproduces the grid cell
for cell, every iterate of the step leaves it unchanged, and its activity
count is the constant 4 across all steps. -/
theorem block_still_life (a b : Nat) (ha : a < WIDTH) (hb : b < HEIGHT) :
    agreeOn (stepGrid (blockGrid a b)) (blockGrid a b)
    ∧ (∀ k, agreeOn (stepIter k (blockGrid a b)) (blockGrid a b))
    ∧ activity (blockGrid a b) = 4
    ∧ (∀ k, activity (stepIter k (blockGrid a b)) = 4) := by
  refine ⟨blockGrid_step a b ha hb, blockGrid_stepIter a b ha hb,
    activity_block a b ha hb, fun k => ?_⟩
  rw [activity_congr _ _ (blockGrid_stepIter a b ha hb k)]
  exact activity_block a b ha hb

theorem block_still_life_witness : activity (blockGrid 20 20) = 4 :=
  (block_still_life 20 20 (by decide) (by decide)).2.2.1

theorem cycle_reseeds_iff_low_activity_witness :
    cycle initMach (fun _ => ⟨10, 10, 0⟩)
      = ⟨seedN (writeNext initMach.st (!initMach.now) (stepGrid (initMach.st initMach.now)))
          (!initMach.now) 1 (fun _ => ⟨10, 10, 0⟩), !initMach.now⟩ :=
  (cycle_reseeds_iff_low_activity initMach (fun _ => ⟨10, 10, 0⟩)).2.2.2.1
    (by
      have h : nextAliveCellCount (initMach.st initMach.now) = 0 := nextAliveCellCount_dead
      rw [h]
      decide)

theorem wr_ne (st : GState) (i : Bool) (a b v : Nat) (j : Bool) (x y : Nat)
    (h : ¬(j = i ∧ x = a ∧ y = b)) : wr st i a b v j x y = st j x y := by
  unfold wr
  rw [if_neg h]

theorem stampList_untouched (i : Bool) (sh : shape) (px py : Nat) :
    ∀ (L : List Nat) (st : GState) (j : Bool) (x y : Nat),
      (∀ k ∈ L, maskChar sh k = '1' →
        ¬(j = i ∧ x = px + k % sh.width ∧ y = py + k / sh.width)) →
      stampList st i sh px py L j x y = st j x y := by
  intro L
  induction L with
  | nil => intro st j x y _; rfl
  | cons k0 L ih =>
    intro st j x y h
    have hcons : stampList st i sh px py (k0 :: L)
        = stampList (if maskChar sh k0 = '1'
            then wr st i (px + k0 % sh.width) (py + k0 / sh.width) 2 else st)
            i sh px py L := rfl
    rw [hcons]
    by_cases hm : maskChar sh k0 = '1'
    · rw [ih _ j x y (fun k hk hmk => h k (List.mem_cons_of_mem _ hk) hmk)]
      rw [if_pos hm]
      exact wr_ne st i _ _ 2 j x y (h k0 (List.mem_cons_self _ _) hm)
    · rw [ih _ j x y (fun k hk hmk => h k (List.mem_cons_of_mem _ hk) hmk)]
      rw [if_neg hm]

theorem stampList_hits (i : Bool) (sh : shape) (px py : Nat) :
    ∀ (L : List Nat) (st : GState) (x y : Nat),
      (∃ k ∈ L, maskChar sh k = '1'
        ∧ x = px + k % sh.width ∧ y = py + k / sh.width) →
      stampList st i sh px py L i x y = 2 := by
  intro L
  induction L with
  | nil => intro st x y h; exact absurd h (by simp)
  | cons k0 L ih =>
    intro st x y h
    have hcons : stampList st i sh px py (k0 :: L)
        = stampList (if maskChar sh k0 = '1'
            then wr st i (px + k0 % sh.width) (py + k0 / sh.width) 2 else st)
            i sh px py L := rfl
    rw [hcons]
    by_cases htail : ∃ k ∈ L, maskChar sh k = '1'
        ∧ x = px + k % sh.width ∧ y = py + k / sh.width
    · exact ih _ x y htail
    · obtain ⟨k, hkmem, hmk, hx, hy⟩ := h
      rcases List.mem_cons.1 hkmem with hk0 | hkL
      · subst hk0
        have hnone : ∀ k2 ∈ L, maskChar sh k2 = '1' →
            ¬(i = i ∧ x = px + k2 % sh.width ∧ y = py + k2 / sh.width) := by
          intro k2 hk2 hmk2 hc
          exact htail ⟨k2, hk2, hmk2, hc.2.1, hc.2.2⟩
        rw [stampList_untouched i sh px py L _ i x y hnone]
        rw [if_pos hmk]
        unfold wr
        rw [if_pos ⟨rfl, hx, hy⟩]
      · exact absurd ⟨k, hkL, hmk, hx, hy⟩ htail

theorem stampShape_hit (st : GState) (i : Bool) (sh : shape) (px py x y : Nat)
    (h : maskHit sh px py x y) : stampShape st i sh px py i x y = 2 := by
  obtain ⟨k, hk, hmk, hx, hy⟩ := h
  exact stampList_hits i sh px py _ st x y ⟨k, List.mem_range.2 hk, hmk, hx, hy⟩

theorem stampShape_untouched (st : GState) (i : Bool) (sh : shape) (px py : Nat)
    (j : Bool) (x y : Nat) (h : j ≠ i ∨ ¬maskHit sh px py x y) :
    stampShape st i sh px py j x y = st j x y := by
  apply stampList_untouched
  intro k hk hmk hc
  rcases h with h | h
  · exact h hc.1
  · exact h ⟨k, List.mem_range.1 hk, hmk, hc.2.1, hc.2.2⟩

theorem seedN_succ (st : GState) (i : Bool) (n : Nat) (ds : Nat → Draw) :
    seedN st i (n + 1) ds = stampDraw (seedN st i n ds) i (ds n) := by
  unfold seedN
  rw [List.range_succ, List.foldl_append]
  rfl

theorem seedN_untouched (i : Bool) (ds : Nat → Draw) :
    ∀ (n : Nat) (st : GState) (j : Bool) (x y : Nat),
      (j ≠ i ∨ ∀ k, k < n → ¬drawHit (ds k) x y) →
      seedN st i n ds j x y = st j x y := by
  intro n
  induction n with
  | zero => intro st j x y _; rfl
  | succ n ih =>
    intro st j x y h
    rw [seedN_succ]
    have h1 : stampDraw (seedN st i n ds) i (ds n) j x y = seedN st i n ds j x y := by
      apply stampShape_untouched
      rcases h with h | h
      · exact Or.inl h
      · exact Or.inr (h n (by omega))
    rw [h1]
    apply ih
    rcases h with h | h
    · exact Or.inl h
    · exact Or.inr fun k hk => h k (by omega)

theorem seedN_hit (i : Bool) (ds : Nat → Draw) :
    ∀ (n : Nat) (st : GState) (x y : Nat),
      (∃ k, k < n ∧ drawHit (ds k) x y) →
      seedN st i n ds i x y = 2 := by
  intro n
  induction n with
  | zero =>
    intro st x y h
    obtain ⟨k, hk, _⟩ := h
    omega
  | succ n ih =>
    intro st x y h
    rw [seedN_succ]
    by_cases hlast : drawHit (ds n) x y
    · exact stampShape_hit _ _ _ _ _ _ _ hlast
    · obtain ⟨k, hk, hhit⟩ := h
      have hk' : k < n := by
        rcases Nat.lt_succ_iff_lt_or_eq.1 hk with h2 | h2
        · exact h2
        · subst h2; exact absurd hhit hlast
      have h1 : stampDraw (seedN st i n ds) i (ds n) i x y = seedN st i n ds i x y :=
        stampShape_untouched _ _ _ _ _ _ _ _ (Or.inr hlast)
      rw [h1]
      exact ih st x y ⟨k, hk', hhit⟩

/-- C6: a seeder call modifies only cells covered by mask-true offsets of
the stamped shapes, and sets every such cell of the current buffer to the
canonical-alive Survived index 2 (never Born); every cell not covered by a
stamp, and the entire other (next) buffer, keep their previous values; and
the current/next buffer roles after a full cycle do not depend on whether
the seeder ran (the cycle always flips `now` exactly once). -/
theorem seeder_frame_effect (st : GState) (i : Bool) (n : Nat) (ds : Nat → Draw) :
    (∀ (j : Bool) (x y : Nat), j ≠ i → seedN st i n ds j x y = st j x y)
    ∧ (∀ x y : Nat, (∃ k, k < n ∧ drawHit (ds k) x y) → seedN st i n ds i x y = 2)
    ∧ (∀ x y : Nat, (∀ k, k < n → ¬drawHit (ds k) x y) → seedN st i n ds i x y = st i x y)
    ∧ (∀ (m : Mach) (ds2 : Nat → Draw), (cycle m ds2).now = !m.now) := by
  refine ⟨fun j x y hj => seedN_untouched i ds n st j x y (Or.inl hj),
    fun x y h => seedN_hit i ds n st x y h,
    fun x y h => seedN_untouched i ds n st i x y (Or.inr h),
    fun m ds2 => ?_⟩
  unfold cycle
  dsimp only
  split <;> rfl

theorem seeder_frame_effect_witness :
    seedN initState false 1 (fun _ => ⟨10, 10, 0⟩) false 11 10 = 2 :=
  (seeder_frame_effect initState false 1 (fun _ => ⟨10, 10, 0⟩)).2.1 11 10
    ⟨0, by decide, 1, by decide⟩

theorem shape_extent_bound :
    ∀ s, s < seedsC →
      0 < (seeds.getD s GLIDER).width ∧ (seeds.getD s GLIDER).width ≤ 8
      ∧ 0 < (seeds.getD s GLIDER).height ∧ (seeds.getD s GLIDER).height ≤ 5 := by
  decide

/-- C5: with placement origins drawn from `[10, WIDTH-10) × [10, HEIGHT-10)`
and every library shape of extent at most 8×5, every write performed by a
seeder call is in bounds: each loop index maps to a cell with
`px + x < WIDTH` and `py + y < HEIGHT`, and consequently a seeder call with
valid draws changes only cells of the current buffer that lie strictly
inside the grid — no overlay write wraps or leaves the grid. -/
theorem seed_writes_in_bounds :
    (∀ s, s < seedsC → (seeds.getD s GLIDER).width ≤ 8 ∧ (seeds.getD s GLIDER).height ≤ 5)
    ∧ (∀ d : Draw, validDraw d →
        ∀ k, k < (drawShape d).width * (drawShape d).height →
          d.px + k % (drawShape d).width < WIDTH
          ∧ d.py + k / (drawShape d).width < HEIGHT)
    ∧ (∀ (st : GState) (i : Bool) (n : Nat) (ds : Nat → Draw),
        (∀ k, k < n → validDraw (ds k)) →
        ∀ (j : Bool) (x y : Nat), seedN st i n ds j x y ≠ st j x y →
          j = i ∧ x < WIDTH ∧ y < HEIGHT) := by
  have hbound : ∀ d : Draw, validDraw d →
      ∀ k, k < (drawShape d).width * (drawShape d).height →
        d.px + k % (drawShape d).width < WIDTH
        ∧ d.py + k / (drawShape d).width < HEIGHT := by
    intro d hd k hk
    obtain ⟨h10x, hpx, h10y, hpy, hs⟩ := hd
    have hext := shape_extent_bound d.s hs
    rw [show seeds.getD d.s GLIDER = drawShape d from rfl] at hext
    obtain ⟨hw0, hw8, hh0, hh5⟩ := hext
    have hmod : k % (drawShape d).width < (drawShape d).width := Nat.mod_lt _ hw0
    have hdiv : k / (drawShape d).width < (drawShape d).height := by
      rw [Nat.div_lt_iff_lt_mul hw0, Nat.mul_comm]
      exact hk
    have hpx' : d.px < 118 := hpx
    have hpy' : d.py < 54 := hpy
    constructor
    · show d.px + k % (drawShape d).width < 128
      omega
    · show d.py + k / (drawShape d).width < 64
      omega
  refine ⟨fun s hs => ⟨(shape_extent_bound s hs).2.1, (shape_extent_bound s hs).2.2.2⟩,
    hbound, ?_⟩
  intro st i n ds hv j x y hne
  by_cases hj : j = i
  · by_cases hhit : ∃ k, k < n ∧ drawHit (ds k) x y
    · obtain ⟨k, hk, m, hm, hmk, hx, hy⟩ := hhit
      have hb := hbound (ds k) (hv k hk) m hm
      subst hx
      subst hy
      exact ⟨hj, hb.1, hb.2⟩
    · push_neg at hhit
      rw [hj] at hne
      exact absurd (seedN_untouched i ds n st i x y
        (Or.inr fun k hk => hhit k hk)) hne
  · exact absurd (seedN_untouched i ds n st j x y (Or.inl hj)) hne

theorem seed_writes_in_bounds_witness :
    (10 : Nat) + 1 % (drawShape ⟨10, 10, 0⟩).width < WIDTH
    ∧ (10 : Nat) + 1 / (drawShape ⟨10, 10, 0⟩).width < HEIGHT :=
  seed_writes_in_bounds.2.1 ⟨10, 10, 0⟩ (by unfold validDraw; decide) 1 (by decide)

theorem seedN_one (st : GState) (i : Bool) (ds : Nat → Draw) :
    seedN st i 1 ds = stampDraw st i (ds 0) := by
  rw [seedN_succ]
  rfl

theorem alive_initState (j : Bool) (x y : Nat) : alive (initState j x y) = 0 := rfl

theorem diehard_not_hit_outside (px py x y : Nat)
    (h : ¬(px ≤ x ∧ x < px + 8 ∧ py ≤ y ∧ y < py + 3)) :
    ¬maskHit DIEHARD px py x y := by
  intro hhit
  obtain ⟨k, hk, hmk, hx, hy⟩ := hhit
  have h8 : DIEHARD.width = 8 := rfl
  have h3 : DIEHARD.height = 3 := rfl
  rw [h8, h3] at hk
  rw [h8] at hx hy
  have hm8 : k % 8 < 8 := Nat.mod_lt _ (by omega)
  have hd3 : k / 8 < 3 := by omega
  omega

theorem diehard_cell_alive (px py dx dy : Nat) (hdx : dx < 8) (hdy : dy < 3) :
    alive (stampShape initState false DIEHARD px py false (px + dx) (py + dy))
      = if maskChar DIEHARD (dy * 8 + dx) = '1' then 1 else 0 := by
  by_cases hm : maskChar DIEHARD (dy * 8 + dx) = '1'
  · rw [if_pos hm]
    have hhit : maskHit DIEHARD px py (px + dx) (py + dy) := by
      refine ⟨dy * 8 + dx, by rw [show DIEHARD.width = 8 from rfl,
        show DIEHARD.height = 3 from rfl]; omega, hm, ?_, ?_⟩
      · rw [show DIEHARD.width = 8 from rfl]
        congr 1
        omega
      · rw [show DIEHARD.width = 8 from rfl]
        congr 1
        omega
    rw [stampShape_hit initState false DIEHARD px py _ _ hhit]
    rfl
  · rw [if_neg hm]
    have hnh : ¬maskHit DIEHARD px py (px + dx) (py + dy) := by
      intro hhit
      obtain ⟨k, hk, hmk, hx, hy⟩ := hhit
      have h8 : DIEHARD.width = 8 := rfl
      have h3 : DIEHARD.height = 3 := rfl
      rw [h8, h3] at hk
      rw [h8] at hx hy
      have hm8 : k % 8 < 8 := Nat.mod_lt _ (by omega)
      have hkeq : k = dy * 8 + dx := by omega
      rw [hkeq] at hmk
      exact hm hmk
    rw [stampShape_untouched initState false DIEHARD px py false _ _ (Or.inr hnh)]
    rfl

theorem diehard_alive_count (px py : Nat) (hpx2 : px < 118) (hpy2 : py < 54) :
    gridAliveCount (fun x y => stampShape initState false DIEHARD px py false x y) = 7 := by
  unfold gridAliveCount
  have hzero : ∀ x y : Nat, ¬(px ≤ x ∧ x < px + 8 ∧ py ≤ y ∧ y < py + 3) →
      alive (stampShape initState false DIEHARD px py false x y) = 0 := by
    intro x y h
    rw [stampShape_untouched initState false DIEHARD px py false x y
      (Or.inr (diehard_not_hit_outside px py x y h))]
    rfl
  have hsubY : Finset.Ico py (py + 3) ⊆ Finset.range HEIGHT := by
    intro t ht
    rw [Finset.mem_Ico] at ht
    rw [Finset.mem_range]
    show t < 64
    omega
  have hvanY : ∀ t ∈ Finset.range HEIGHT, t ∉ Finset.Ico py (py + 3) →
      (∑ x ∈ Finset.range WIDTH,
        alive (stampShape initState false DIEHARD px py false x t)) = 0 := by
    intro t _ ht
    rw [Finset.mem_Ico] at ht
    refine Finset.sum_eq_zero fun x _ => hzero x t ?_
    omega
  rw [← Finset.sum_subset hsubY hvanY]
  have hIcoY : ∑ t ∈ Finset.Ico py (py + 3),
      (∑ x ∈ Finset.range WIDTH, alive (stampShape initState false DIEHARD px py false x t))
      = ∑ dy ∈ Finset.range (py + 3 - py),
          ∑ x ∈ Finset.range WIDTH, alive (stampShape initState false DIEHARD px py false x (py + dy)) :=
    Finset.sum_Ico_eq_sum_range _ _ _
  rw [hIcoY, show py + 3 - py = 3 from by omega]
  have hinner : ∀ dy, dy < 3 →
      (∑ x ∈ Finset.range WIDTH, alive (stampShape initState false DIEHARD px py false x (py + dy)))
      = ∑ dx ∈ Finset.range 8,
          (if maskChar DIEHARD (dy * 8 + dx) = '1' then 1 else 0) := by
    intro dy hdy
    have hsubX : Finset.Ico px (px + 8) ⊆ Finset.range WIDTH := by
      intro t ht
      rw [Finset.mem_Ico] at ht
      rw [Finset.mem_range]
      show t < 128
      omega
    have hvanX : ∀ t ∈ Finset.range WIDTH, t ∉ Finset.Ico px (px + 8) →
        alive (stampShape initState false DIEHARD px py false t (py + dy)) = 0 := by
      intro t _ ht
      rw [Finset.mem_Ico] at ht
      refine hzero t (py + dy) ?_
      omega
    rw [← Finset.sum_subset hsubX hvanX]
    have hIcoX : ∑ t ∈ Finset.Ico px (px + 8),
        alive (stampShape initState false DIEHARD px py false t (py + dy))
        = ∑ dx ∈ Finset.range (px + 8 - px),
            alive (stampShape initState false DIEHARD px py false (px + dx) (py + dy)) :=
      Finset.sum_Ico_eq_sum_range _ _ _
    rw [hIcoX, show px + 8 - px = 8 from by omega]
    refine Finset.sum_congr rfl fun dx hdx => ?_
    exact diehard_cell_alive px py dx dy (Finset.mem_range.1 hdx) hdy
  calc
    ∑ dy ∈ Finset.range 3,
        (∑ x ∈ Finset.range WIDTH, alive (stampShape initState false DIEHARD px py false x (py + dy)))
        = ∑ dy ∈ Finset.range 3, ∑ dx ∈ Finset.range 8,
            (if maskChar DIEHARD (dy * 8 + dx) = '1' then 1 else 0) :=
          Finset.sum_congr rfl fun dy hdy => hinner dy (Finset.mem_range.1 hdy)
    _ = 7 := by decide

theorem gridAliveCount_init : gridAliveCount (fun x y => initState false x y) = 0 := by
  unfold gridAliveCount
  refine Finset.sum_eq_zero fun y _ => Finset.sum_eq_zero fun x _ => rfl

theorem seedN_diehard_eq_stamp (px py : Nat) :
    (fun x y => seedN initState false 1 (fun _ => ⟨px, py, 9⟩) false x y)
      = fun x y => stampShape initState false DIEHARD px py false x y := by
  funext x y
  rw [seedN_one]
  rfl

/-- The claim's figure is wrong on the code: the DIEHARD mask holds 7 live
cells, not 8, so seeding an empty grid with one DIEHARD draw (at origin
`(10,10)`) yields an activity count of 7 — the count is never 8. -/
theorem diehard_seed_count_not_eight :
    gridAliveCount (fun x y => seedN initState false 1 (fun _ => ⟨10, 10, 9⟩) false x y) ≠ 8 := by
  rw [seedN_diehard_eq_stamp 10 10]
  rw [diehard_alive_count 10 10 (by omega) (by omega)]
  omega

/-- C7 (amended): starting from the all-Dead grid (activity count 0), one
seeder call whose draw selects DIEHARD (shape index 9, the 8×3 mask) at a
valid inset origin leaves exactly the mask's live-cell count — 7 cells —
in the canonical-alive Survived state 2; every non-Dead cell it leaves is
a Survived cell within the grid at or beyond the inset origin, and the
resulting activity count equals 7. -/
theorem diehard_seed_scenario (px py : Nat)
    (h1 : 10 ≤ px) (h2 : px < WIDTH - 10) (h3 : 10 ≤ py) (h4 : py < HEIGHT - 10) :
    gridAliveCount (fun x y => initState false x y) = 0
    ∧ drawShape ⟨px, py, 9⟩ = DIEHARD
    ∧ (DIEHARD.mask.toList.filter (fun c => c = '1')).length = 7
    ∧ gridAliveCount (fun x y => seedN initState false 1 (fun _ => ⟨px, py, 9⟩) false x y) = 7
    ∧ (∀ x y : Nat, seedN initState false 1 (fun _ => ⟨px, py, 9⟩) false x y ≠ 0 →
        seedN initState false 1 (fun _ => ⟨px, py, 9⟩) false x y = 2
        ∧ 10 ≤ x ∧ x < WIDTH ∧ 10 ≤ y ∧ y < HEIGHT) := by
  have h2' : px < 118 := h2
  have h4' : py < 54 := h4
  refine ⟨gridAliveCount_init, rfl, by decide, ?_, ?_⟩
  · rw [seedN_diehard_eq_stamp px py]
    exact diehard_alive_count px py h2' h4'
  · intro x y hne
    have heq : seedN initState false 1 (fun _ => ⟨px, py, 9⟩) false x y
        = stampShape initState false DIEHARD px py false x y := by
      rw [seedN_one]
      rfl
    rw [heq] at hne ⊢
    by_cases hhit : maskHit DIEHARD px py x y
    · obtain ⟨k, hk, hmk, hx, hy⟩ := hhit
      have h8 : DIEHARD.width = 8 := rfl
      have h3 : DIEHARD.height = 3 := rfl
      rw [h8, h3] at hk
      rw [h8] at hx hy
      have hm8 : k % 8 < 8 := Nat.mod_lt _ (by omega)
      have hd3 : k / 8 < 3 := by omega
      refine ⟨stampShape_hit initState false DIEHARD px py x y
        ⟨k, by rw [h8, h3]; omega, hmk, by rw [h8]; exact hx, by rw [h8]; exact hy⟩,
        ?_, ?_, ?_, ?_⟩
      · omega
      · show x < 128
        omega
      · omega
      · show y < 64
        omega
    · exact absurd
        ((stampShape_untouched initState false DIEHARD px py false x y (Or.inr hhit)).trans rfl)
        hne

theorem diehard_seed_scenario_witness :
    gridAliveCount (fun x y => seedN initState false 1 (fun _ => ⟨10, 10, 9⟩) false x y) = 7 :=
  (diehard_seed_scenario 10 10 (by decide) (by decide) (by decide) (by decide)).2.2.2.1

end MatrixLife

namespace MatrixLife

/-- Outcome of `setup()`: completion, or divergence in the `err(x)` blink
loop (recorded with its blink delay, 500 for Protomatter, 250 for I2C). -/
inductive SetupResult where
  | ok : SetupResult
  | fatal : Nat → SetupResult
deriving DecidableEq

/-- `setup()` as a function of its collaborators' results.  The source
checks only `matrix.begin()` and `accel.begin(0x19)`; it never reads the
shape library or the rule table, which are therefore ignored parameters. -/
def setupRun (protomatterOk accelOk : Bool) (shapeLib : List shape)
    (ruleTab : List rule) : SetupResult :=
  if !protomatterOk then SetupResult.fatal 500
  else if !accelOk then SetupResult.fatal 250
  else SetupResult.ok

/-- The claim is false on the code: `setup` performs no configuration
validation, so even a shape whose extent (30) exceeds the seeder inset (10)
reaches the cycle loop — startup completes with no fatal condition. -/
theorem setup_ignores_oversized_shape :
    10 < (⟨30, 30, ""⟩ : shape).width
    ∧ setupRun true true [⟨30, 30, ""⟩] rules = SetupResult.ok :=
  ⟨by decide, rfl⟩

/-- C8 (amended): the program performs no startup configuration validation:
the outcome of `setup` is entirely independent of the shape library and
rule table (it checks only the display and accelerometer collaborators,
failing fast with a distinct blink rate on each); the reference
configuration nevertheless satisfies the invariants the spec wants checked
— every library shape fits inside the 10-cell placement inset and every
rule row is a total mapping over neighbour counts 0..8. -/
theorem startup_performs_no_config_validation :
    (∀ (p a : Bool) (lib1 lib2 : List shape) (rt1 rt2 : List rule),
        setupRun p a lib1 rt1 = setupRun p a lib2 rt2)
    ∧ (∀ (lib : List shape) (rt : List rule),
        setupRun false true lib rt = SetupResult.fatal 500
        ∧ setupRun true false lib rt = SetupResult.fatal 250
        ∧ setupRun true true lib rt = SetupResult.ok)
    ∧ (∀ sh ∈ seeds, sh.width ≤ 10 ∧ sh.height ≤ 10)
    ∧ (∀ r ∈ rules, r.row.length = 9) := by
  refine ⟨fun p a lib1 lib2 rt1 rt2 => rfl, fun lib rt => ⟨rfl, rfl, rfl⟩, ?_, ?_⟩
  · decide
  · decide

theorem startup_performs_no_config_validation_witness :
    GLIDER.width ≤ 10 ∧ GLIDER.height ≤ 10 :=
  startup_performs_no_config_validation.2.2.1 GLIDER
    (by unfold seeds; exact List.mem_cons_self _ _)

/-- Projection of a multi-state grid to its alive flags: Born (1) and
Survived (2) map to 1, Dead, Dying and Trail map to 0. -/
def projAlive (g : Grid) : Grid := fun x y => alive (g x y)

/-- Modelled from the spec: live-neighbour count of a two-state grid on the
same toroidal topology (a neighbour is live when its cell value is 1). -/
def hlNeighbourCount (b : Grid) (x y : Nat) : Nat :=
  (if b (wrapL x) (wrapU y) = 1 then 1 else 0) + (if b x (wrapU y) = 1 then 1 else 0)
    + (if b (wrapR x) (wrapU y) = 1 then 1 else 0) + (if b (wrapL x) y = 1 then 1 else 0)
    + (if b (wrapR x) y = 1 then 1 else 0) + (if b (wrapL x) (wrapD y) = 1 then 1 else 0)
    + (if b x (wrapD y) = 1 then 1 else 0) + (if b (wrapR x) (wrapD y) = 1 then 1 else 0)

/-- Modelled from the spec: one step of the classic two-state B36/S23
(Highlife) rule — a live cell survives on 2 or 3 live neighbours, a dead
cell is born on exactly 3 or 6. -/
def highlifeStep (b : Grid) : Grid := fun x y =>
  if b x y = 1 then
    (if hlNeighbourCount b x y = 2 ∨ hlNeighbourCount b x y = 3 then 1 else 0)
  else
    (if hlNeighbourCount b x y = 3 ∨ hlNeighbourCount b x y = 6 then 1 else 0)

theorem alive_ite (s : Nat) : (if alive s = 1 then 1 else 0) = alive s := by
  have h := alive_le_one s
  by_cases h1 : alive s = 1
  · simp [h1]
  · simp only [h1, if_false]
    omega

theorem hlCount_proj (g : Grid) (x y : Nat) :
    hlNeighbourCount (projAlive g) x y = neighbourCount g x y := by
  unfold hlNeighbourCount projAlive neighbourCount
  rw [alive_ite, alive_ite, alive_ite, alive_ite, alive_ite, alive_ite, alive_ite, alive_ite]

theorem ruleNext_matches_highlife (s n : Nat) (hs : s < 5) (hn : n ≤ 8) :
    alive (ruleNext s n)
      = if alive s = 1 then (if n = 2 ∨ n = 3 then 1 else 0)
        else (if n = 3 ∨ n = 6 then 1 else 0) := by
  interval_cases s <;> interval_cases n <;> decide

/-- C10: projecting each cell through its alive flag commutes with
stepping: for every valid grid, one transition-engine step followed by the
alive projection agrees, on every cell, with one step of the classic
two-state B36/S23 (Highlife) rule applied on the same toroidal topology to
the projected grid. -/
theorem step_refines_highlife :
    ∀ g : Grid, validGrid g → ∀ x, x < WIDTH → ∀ y, y < HEIGHT →
      projAlive (stepGrid g) x y = highlifeStep (projAlive g) x y := by
  intro g hg x hx y hy
  have hs : g x y < 5 := hg x hx y hy
  have hn : neighbourCount g x y ≤ 8 := neighbourCount_le_eight g x y
  have hhl : highlifeStep (projAlive g) x y
      = if alive (g x y) = 1 then
          (if neighbourCount g x y = 2 ∨ neighbourCount g x y = 3 then 1 else 0)
        else
          (if neighbourCount g x y = 3 ∨ neighbourCount g x y = 6 then 1 else 0) := by
    unfold highlifeStep
    rw [hlCount_proj]
    rfl
  show alive (ruleNext (g x y) (neighbourCount g x y)) = highlifeStep (projAlive g) x y
  rw [hhl]
  exact ruleNext_matches_highlife _ _ hs hn

theorem step_refines_highlife_witness :
    projAlive (stepGrid (fun _ _ => 0)) 0 0 = highlifeStep (projAlive (fun _ _ => 0)) 0 0 :=
  step_refines_highlife (fun _ _ => 0) (fun _ _ _ _ => Nat.succ_pos 4) 0
    (Nat.succ_pos 127) 0 (Nat.succ_pos 63)

end MatrixLife
